import Mathlib

/-!
Verification of the word-search puzzle generator (Go, `basic.go`).

The program is embedded shallowly:
* the 10x10 rune grid becomes a total function `Int → Int → Char` with the
  empty sentinel `Char.ofNat 0` (Go's zero rune); all indices the program
  computes are proved to stay inside `[0, gridSize)`;
* `math/rand` is abstracted as a stream `Nat → Nat` together with a counter:
  `rand.Intn n` at counter `k` yields `stream k % n` and advances the counter;
* the per-word attempt loop (`attempts < 100`) becomes structural recursion
  on the remaining fuel;
* strings handled by the placement engine are lists of characters (the claims
  restrict them to ASCII `A`–`Z`, where Go's byte indexing and rune iteration
  coincide).
-/

namespace WordSearch

/-- Grid side length (`gridSize` constant in the source). -/
def gridSize : Nat := 10

/-- Direction constant `RIGHT = 0`. -/
def RIGHT : Int := 0

/-- Direction constant `LEFT = 1`. -/
def LEFT : Int := 1

/-- Direction constant `DOWN = 2`. -/
def DOWN : Int := 2

/-- Direction constant `UP = 3`. -/
def UP : Int := 3

/-- Direction constant `DOWN_RIGHT = 4`. -/
def DOWN_RIGHT : Int := 4

/-- Direction constant `DOWN_LEFT = 5`. -/
def DOWN_LEFT : Int := 5

/-- Direction constant `UP_RIGHT = 6`. -/
def UP_RIGHT : Int := 6

/-- Direction constant `UP_LEFT = 7`. -/
def UP_LEFT : Int := 7

/-- Go's `getDirectionDeltas`: row and column deltas for a direction, with the
`switch` default of `(0, 1)` (RIGHT). -/
def getDirectionDeltas (direction : Int) : Int × Int :=
  if direction = RIGHT then (0, 1)
  else if direction = LEFT then (0, -1)
  else if direction = DOWN then (1, 0)
  else if direction = UP then (-1, 0)
  else if direction = DOWN_RIGHT then (1, 1)
  else if direction = DOWN_LEFT then (1, -1)
  else if direction = UP_RIGHT then (-1, 1)
  else if direction = UP_LEFT then (-1, -1)
  else (0, 1)

/-- The grid `[gridSize][gridSize]rune`, modelled as a total function on
integer coordinates; only cells with both coordinates in `[0, gridSize)` are
ever read or written by the program model. -/
def Grid : Type := Int → Int → Char

/-- The empty-cell sentinel (`0` rune in Go). -/
def emptyCell : Char := Char.ofNat 0

/-- The all-empty initial grid (the initialization loop of
`generateWordSearchGrid`). -/
def emptyGrid : Grid := fun _ _ => emptyCell

/-- Writing one cell of the grid (`grid[r][c] = v`). -/
def updateCell (g : Grid) (r c : Int) (v : Char) : Grid :=
  fun r' c' => if r' = r ∧ c' = c then v else g r' c'

/-- Go's `WordPlacement` record. -/
structure WordPlacement where
  word : List Char
  row : Int
  col : Int
  direction : Int
deriving DecidableEq

/-- The cell visited at offset `i` along a placement's path. -/
def placementCell (p : WordPlacement) (i : Nat) : Int × Int :=
  (p.row + (getDirectionDeltas p.direction).1 * (i : Int),
   p.col + (getDirectionDeltas p.direction).2 * (i : Int))

/-- The conflict loop of `canPlaceWord`: walking the remaining letters from
offset `i`, the cell must be empty or already hold the letter. -/
def checkConflictsFrom (g : Grid) (row col dRow dCol : Int) :
    List Char → Nat → Bool
  | [], _ => true
  | letter :: rest, i =>
    let currentRow := row + dRow * (i : Int)
    let currentCol := col + dCol * (i : Int)
    let existingLetter := g currentRow currentCol
    if existingLetter ≠ emptyCell ∧ existingLetter ≠ letter then false
    else checkConflictsFrom g row col dRow dCol rest (i + 1)

/-- Go's `canPlaceWord`: bounds check on the end coordinate, then the
conflict loop. -/
def canPlaceWord (g : Grid) (word : List Char) (row col direction : Int) :
    Bool :=
  let wordLen := word.length
  let d := getDirectionDeltas direction
  let endRow := row + d.1 * ((wordLen : Int) - 1)
  let endCol := col + d.2 * ((wordLen : Int) - 1)
  if endRow < 0 ∨ endRow ≥ (gridSize : Int) ∨ endCol < 0 ∨
      endCol ≥ (gridSize : Int) then false
  else checkConflictsFrom g row col d.1 d.2 word 0

/-- The write loop of `placeWord`, from letter offset `i` on. -/
def placeWordFrom (row col dRow dCol : Int) :
    Grid → List Char → Nat → Grid
  | g, [], _ => g
  | g, letter :: rest, i =>
    placeWordFrom row col dRow dCol
      (updateCell g (row + dRow * (i : Int)) (col + dCol * (i : Int)) letter)
      rest (i + 1)

/-- Go's `placeWord`: writes every letter of the word along the path. -/
def placeWord (g : Grid) (word : List Char) (row col direction : Int) :
    Grid :=
  let d := getDirectionDeltas direction
  placeWordFrom row col d.1 d.2 g word 0

/-- Result of the per-word attempt loop: final grid, placement list, random
counter, whether the word was placed, and the value of Go's `attempts`
variable when the loop exited. -/
structure TryResult where
  grid : Grid
  placements : List WordPlacement
  k : Nat
  placed : Bool
  attempts : Nat

/-- The attempt loop of `generateWordSearchGrid` for one word, recursing on
the remaining fuel (`maxAttempts - attempts`).  Each iteration draws a start
row, start column and direction and increments `attempts` whatever the
outcome. -/
def tryPlaceWord (word : List Char) (stream : Nat → Nat) :
    Nat → Grid → List WordPlacement → Nat → TryResult
  | 0, g, placements, k => ⟨g, placements, k, false, 0⟩
  | fuel + 1, g, placements, k =>
    let row : Int := (stream k % gridSize : Nat)
    let col : Int := (stream (k + 1) % gridSize : Nat)
    let direction : Int := (stream (k + 2) % 8 : Nat)
    if canPlaceWord g word row col direction then
      ⟨placeWord g word row col direction,
       placements ++ [⟨word, row, col, direction⟩], k + 3, true, 1⟩
    else
      let r := tryPlaceWord word stream fuel g placements (k + 3)
      ⟨r.grid, r.placements, r.k, r.placed, r.attempts + 1⟩

/-- The word loop of `generateWordSearchGrid`: each word gets a fresh attempt
loop with `maxAttempts = 100`; an unplaced word only triggers a warning and
processing continues. -/
def processWords (stream : Nat → Nat) :
    List (List Char) → Grid → List WordPlacement → Nat →
    Grid × List WordPlacement × Nat
  | [], g, placements, k => (g, placements, k)
  | word :: rest, g, placements, k =>
    let r := tryPlaceWord word stream 100 g placements k
    processWords stream rest r.grid r.placements r.k

/-- The coordinates scanned by the final fill loop, in row-major order. -/
def allCells : List (Int × Int) :=
  (List.range gridSize).flatMap fun (row : Nat) =>
    (List.range gridSize).map fun (col : Nat) =>
      (((row : Nat) : Int), ((col : Nat) : Int))

/-- The random fill letter `'A' + rand.Intn(26)`. -/
def fillLetter (v : Nat) : Char := Char.ofNat ('A'.toNat + v % 26)

/-- The final fill loop: every cell still holding the sentinel receives a
random letter (one random draw per empty cell). -/
def fillCells (stream : Nat → Nat) :
    List (Int × Int) → Grid → Nat → Grid × Nat
  | [], g, k => (g, k)
  | rc :: rest, g, k =>
    if g rc.1 rc.2 = emptyCell then
      fillCells stream rest (updateCell g rc.1 rc.2 (fillLetter (stream k)))
        (k + 1)
    else fillCells stream rest g k

/-- Go's `generateWordSearchGrid`: empty grid, word loop, fill loop; returns
the final grid and the recorded placements. -/
def generateWordSearchGrid (words : List (List Char)) (stream : Nat → Nat) :
    Grid × List WordPlacement :=
  let r := processWords stream words emptyGrid [] 0
  let f := fillCells stream allCells r.1 r.2.2
  (f.1, r.2.1)

/-- The extraction loop of `verifyWordPlacements`: read back the word's
length letters from the grid, substituting `?` for out-of-bounds cells. -/
def extractWord (g : Grid) (p : WordPlacement) : List Char :=
  let d := getDirectionDeltas p.direction
  (List.range p.word.length).map fun (i : Nat) =>
    let currentRow := p.row + d.1 * ((i : Nat) : Int)
    let currentCol := p.col + d.2 * ((i : Nat) : Int)
    if 0 ≤ currentRow ∧ currentRow < (gridSize : Int) ∧ 0 ≤ currentCol ∧
        currentCol < (gridSize : Int) then
      g currentRow currentCol
    else '?'

/-- Go's `verifyWordPlacements`: the per-placement pass/fail verdicts
(extracted word compared with the recorded word). -/
def verifyWordPlacements (g : Grid) (placements : List WordPlacement) :
    List Bool :=
  placements.map fun p => extractWord g p == p.word

/-- ASCII whitespace recognized by Go's `strings.TrimSpace` (space, tab,
newline, vertical tab, form feed, carriage return). -/
def isSpaceChar (c : Char) : Bool :=
  c = ' ' ∨ c = '\t' ∨ c = '\n' ∨ c = '\r' ∨ c = Char.ofNat 11 ∨
    c = Char.ofNat 12

/-- Go's `strings.TrimSpace` on a line, modelled character-wise (the lines of
interest are ASCII). -/
def trimWord (s : String) : String :=
  String.mk (((s.data.dropWhile isSpaceChar).reverse.dropWhile
    isSpaceChar).reverse)

/-- The scanner loop of `loadCustomVocab`: keep each trimmed non-blank
line, in order. -/
def loadVocabLoop : List String → List String → List String
  | [], words => words
  | line :: rest, words =>
    let word := trimWord line
    if word ≠ "" then loadVocabLoop rest (words ++ [word])
    else loadVocabLoop rest words

/-- Go's `loadCustomVocab` on the file's lines: trimmed non-blank lines in
order, or an error when fewer than 10 remain. -/
def loadCustomVocab (lines : List String) : Except String (List String) :=
  let words := loadVocabLoop lines []
  if words.length < 10 then
    Except.error "vocabulary file must contain at least 10 words"
  else Except.ok words

/-- The trimmed non-blank lines of a file, in order (specification shape of
`loadCustomVocab`'s success value). -/
def usableLines (lines : List String) : List String :=
  (lines.map trimWord).filter fun w => w ≠ ""

/-- The accumulator loop of `filterWordsByLength` (kept and removed words;
`len` in Go is the byte length). -/
def filterWordsLoop (maxLength : Nat) :
    List String → List String → List String → List String × List String
  | [], filteredWords, removedWords => (filteredWords, removedWords)
  | word :: rest, filteredWords, removedWords =>
    if word.utf8ByteSize ≤ maxLength then
      filterWordsLoop maxLength rest (filteredWords ++ [word]) removedWords
    else
      filterWordsLoop maxLength rest filteredWords (removedWords ++ [word])

/-- Go's `filterWordsByLength`: returns the kept words (the removed list is
only printed). -/
def filterWordsByLength (words : List String) (maxLength : Nat) :
    List String :=
  (filterWordsLoop maxLength words [] []).1

/-- The built-in `firstGradeVocab` list. -/
def firstGradeVocab : List String :=
  ["ache", "enormous", "equal", "exclaim", "exhausted", "expensive",
   "fancy", "fasten", "filthy", "flat", "flee", "fog", "footprint",
   "forest", "freezing", "gather", "giant", "glad", "gleaming", "glum",
   "grab", "grateful", "grin", "grip", "groan", "hatch", "heap", "hide",
   "hobby", "honest", "howl", "illustrator", "injury", "jealous", "knob",
   "lively", "loosen", "mask", "misty", "modern", "mountain", "narrow",
   "obey", "pain", "passenger", "pattern", "pest", "polish", "pretend",
   "promise", "rapid", "remove", "repeat", "rescue", "restart", "return",
   "ripe", "rise", "roar", "rough", "rusty", "scold", "scratch", "seed",
   "selfish", "serious", "shell", "shovel", "shriek", "sibling", "silent",
   "simple", "slippery", "sly", "sneaky", "sob", "spiral", "splendid",
   "sprinkle", "squirm", "startle", "steep", "stormy", "striped",
   "surround", "switch", "terrified", "thick", "thunder", "ticket",
   "timid", "transportation", "travel", "trust", "upset", "weed",
   "whimper", "whirl", "wicked", "yank"]

/-- The vocabulary stage of `main`: `none` means no `-vocab` flag (built-in
vocabulary); `some none` means the flag was given but the file could not be
read; `some (some lines)` means the file was read with those lines.  The
result is the filtered word list handed to generation, or the fatal
configuration error. -/
def mainVocabPipeline (arg : Option (Option (List String))) :
    Except String (List String) :=
  let vocabulary : Except String (List String) :=
    match arg with
    | none => Except.ok firstGradeVocab
    | some none => Except.error "failed to open vocabulary file"
    | some (some lines) => loadCustomVocab lines
  match vocabulary with
  | Except.error e => Except.error e
  | Except.ok vocab =>
    let filtered := filterWordsByLength vocab gridSize
    if filtered.length < 10 then
      Except.error "not enough words available after filtering"
    else Except.ok filtered

/-- Go's `strings.ToUpper` on a word, character by character (the inputs of
interest are ASCII, where this matches Go's Unicode mapping). -/
def strToUpper (s : String) : String := String.mk (s.data.map Char.toUpper)

/-- One step of the selection loop in `main`: draw a random index, append
the uppercased word, swap-remove the drawn element. -/
def selectWordsLoop (stream : Nat → Nat) :
    Nat → List String → List String → Nat → List String × Nat
  | 0, _, words, k => (words, k)
  | _ + 1, [], words, k => (words, k)
  | n + 1, t :: ts, words, k =>
    let temp := t :: ts
    let randomIndex := stream k % temp.length
    have hlt : randomIndex < temp.length :=
      Nat.mod_lt _ (List.length_pos_of_ne_nil (List.cons_ne_nil t ts))
    let drawn := temp.get ⟨randomIndex, hlt⟩
    let newTemp :=
      (temp.set randomIndex (temp.getLast (List.cons_ne_nil t ts))).dropLast
    selectWordsLoop stream n newTemp (words ++ [strToUpper drawn]) (k + 1)

/-- The word-selection loop of `main`: up to 10 draws from a working copy of
the vocabulary. -/
def selectWords (vocabulary : List String) (stream : Nat → Nat) (k : Nat) :
    List String × Nat :=
  selectWordsLoop stream 10 vocabulary [] k

/-- Characters written by word placement: uppercase ASCII letters. -/
def UpperChar (ch : Char) : Prop := 'A' ≤ ch ∧ ch ≤ 'Z'

/-- A word all of whose characters are uppercase ASCII letters. -/
def UpperWord (w : List Char) : Prop := ∀ ch ∈ w, UpperChar ch

/-- A grid cell is either the empty sentinel or an uppercase letter. -/
def CellOk (ch : Char) : Prop := ch = emptyCell ∨ UpperChar ch

/-- Every cell of the grid is empty or an uppercase letter. -/
def GridOk (g : Grid) : Prop := ∀ r c, CellOk (g r c)

/-- Every cell on a placement's path lies inside the grid. -/
def PathInBounds (p : WordPlacement) : Prop :=
  ∀ i, i < p.word.length →
    0 ≤ (placementCell p i).1 ∧ (placementCell p i).1 < (gridSize : Int) ∧
    0 ≤ (placementCell p i).2 ∧ (placementCell p i).2 < (gridSize : Int)

/-- Reading the grid along a placement's path reproduces the word. -/
def PlacementHolds (g : Grid) (p : WordPlacement) : Prop :=
  ∀ i (h : i < p.word.length),
    g (placementCell p i).1 (placementCell p i).2 = p.word.get ⟨i, h⟩

/-- Invariant maintained by the placement engine. -/
def EngineInv (g : Grid) (ps : List WordPlacement) : Prop :=
  GridOk g ∧ ∀ p ∈ ps, UpperWord p.word ∧ PathInBounds p ∧ PlacementHolds g p

instance (ch : Char) : Decidable (UpperChar ch) :=
  inferInstanceAs (Decidable (_ ∧ _))

instance (w : List Char) : Decidable (UpperWord w) :=
  inferInstanceAs (Decidable (∀ ch ∈ w, UpperChar ch))

theorem upperChar_ne_empty (ch : Char) (h : UpperChar ch) : ch ≠ emptyCell := by
  intro he
  subst he
  exact absurd h.1 (by decide)

theorem getDirectionDeltas_cases (d : Int) :
    getDirectionDeltas d = (0, 1) ∨ getDirectionDeltas d = (0, -1) ∨
    getDirectionDeltas d = (1, 0) ∨ getDirectionDeltas d = (-1, 0) ∨
    getDirectionDeltas d = (1, 1) ∨ getDirectionDeltas d = (1, -1) ∨
    getDirectionDeltas d = (-1, 1) ∨ getDirectionDeltas d = (-1, -1) := by
  unfold getDirectionDeltas
  split_ifs <;> tauto

theorem getDirectionDeltas_small (d : Int) :
    ((getDirectionDeltas d).1 = -1 ∨ (getDirectionDeltas d).1 = 0 ∨
      (getDirectionDeltas d).1 = 1) ∧
    ((getDirectionDeltas d).2 = -1 ∨ (getDirectionDeltas d).2 = 0 ∨
      (getDirectionDeltas d).2 = 1) ∧
    ¬((getDirectionDeltas d).1 = 0 ∧ (getDirectionDeltas d).2 = 0) := by
  rcases getDirectionDeltas_cases d with h | h | h | h | h | h | h | h <;>
    rw [h] <;> norm_num

theorem checkConflictsFrom_eq_true (g : Grid) (row col dRow dCol : Int) :
    ∀ (letters : List Char) (i0 : Nat),
    checkConflictsFrom g row col dRow dCol letters i0 = true ↔
      ∀ j (h : j < letters.length),
        g (row + dRow * ((i0 + j : Nat) : Int))
            (col + dCol * ((i0 + j : Nat) : Int)) = emptyCell ∨
        g (row + dRow * ((i0 + j : Nat) : Int))
            (col + dCol * ((i0 + j : Nat) : Int)) = letters.get ⟨j, h⟩ := by
  intro letters
  induction letters with
  | nil => intro i0; simp [checkConflictsFrom]
  | cons letter rest ih =>
    intro i0
    by_cases hc : g (row + dRow * (i0 : Int)) (col + dCol * (i0 : Int)) ≠
        emptyCell ∧
        g (row + dRow * (i0 : Int)) (col + dCol * (i0 : Int)) ≠ letter
    · rw [show checkConflictsFrom g row col dRow dCol (letter :: rest) i0 =
          false from by rw [checkConflictsFrom]; rw [if_pos hc]]
      simp only [Bool.false_eq_true, false_iff]
      intro hall
      have h0 := hall 0 (by simp)
      simp only [Nat.add_zero, List.get] at h0
      tauto
    · rw [show checkConflictsFrom g row col dRow dCol (letter :: rest) i0 =
          checkConflictsFrom g row col dRow dCol rest (i0 + 1) from by
        rw [checkConflictsFrom]; rw [if_neg hc]]
      rw [ih (i0 + 1)]
      push_neg at hc
      constructor
      · intro hall j hj
        match j with
        | 0 =>
          simp only [Nat.add_zero, List.get]
          by_cases he : g (row + dRow * (i0 : Int))
              (col + dCol * (i0 : Int)) = emptyCell
          · exact Or.inl he
          · exact Or.inr (hc he)
        | j + 1 =>
          have hj' : j < rest.length := by
            simpa using Nat.lt_of_succ_lt_succ hj
          have := hall j hj'
          have e : i0 + 1 + j = i0 + (j + 1) := by omega
          rw [e] at this
          simpa [List.get] using this
      · intro hall j hj
        have := hall (j + 1) (by simpa using Nat.succ_lt_succ hj)
        have e : i0 + (j + 1) = i0 + 1 + j := by omega
        rw [e] at this
        simpa [List.get] using this

theorem placeWordFrom_off_path (row col dRow dCol r' c' : Int) :
    ∀ (letters : List Char) (i0 : Nat) (g : Grid),
    (∀ j, j < letters.length →
      ¬(r' = row + dRow * ((i0 + j : Nat) : Int) ∧
        c' = col + dCol * ((i0 + j : Nat) : Int))) →
    placeWordFrom row col dRow dCol g letters i0 r' c' = g r' c' := by
  intro letters
  induction letters with
  | nil => intro i0 g _; rfl
  | cons letter rest ih =>
    intro i0 g hoff
    rw [placeWordFrom]
    rw [ih (i0 + 1) _ ?_]
    · rw [updateCell]
      rw [if_neg ?_]
      have := hoff 0 (by simp)
      simpa using this
    · intro j hj
      have := hoff (j + 1) (by simpa using Nat.succ_lt_succ hj)
      have e : i0 + (j + 1) = i0 + 1 + j := by omega
      rwa [e] at this

theorem placeWordFrom_value_or (row col dRow dCol : Int) :
    ∀ (letters : List Char) (i0 : Nat) (g : Grid) (r' c' : Int),
    placeWordFrom row col dRow dCol g letters i0 r' c' = g r' c' ∨
      ∃ j, ∃ h : j < letters.length,
        placeWordFrom row col dRow dCol g letters i0 r' c' =
          letters.get ⟨j, h⟩ := by
  intro letters
  induction letters with
  | nil => intro i0 g r' c'; exact Or.inl rfl
  | cons letter rest ih =>
    intro i0 g r' c'
    rw [placeWordFrom]
    rcases ih (i0 + 1)
        (updateCell g (row + dRow * (i0 : Int)) (col + dCol * (i0 : Int))
          letter) r' c' with h | ⟨j, hj, hv⟩
    · rw [h, updateCell]
      by_cases hcell : r' = row + dRow * (i0 : Int) ∧
          c' = col + dCol * (i0 : Int)
      · rw [if_pos hcell]
        exact Or.inr ⟨0, by simp, rfl⟩
      · rw [if_neg hcell]
        exact Or.inl rfl
    · exact Or.inr ⟨j + 1, by simpa using Nat.succ_lt_succ hj, by
        simpa [List.get] using hv⟩

theorem path_cell_inj (dRow dCol : Int)
    (hne : ¬(dRow = 0 ∧ dCol = 0)) (row col : Int) (a b : Nat)
    (h1 : row + dRow * (a : Int) = row + dRow * (b : Int))
    (h2 : col + dCol * (a : Int) = col + dCol * (b : Int)) : a = b := by
  by_cases hr : dRow = 0
  · have hcol : dCol ≠ 0 := fun h0 => hne ⟨hr, h0⟩
    have h2' : dCol * (a : Int) = dCol * (b : Int) := by linarith
    have := mul_left_cancel₀ hcol h2'
    exact_mod_cast this
  · have h1' : dRow * (a : Int) = dRow * (b : Int) := by linarith
    have := mul_left_cancel₀ hr h1'
    exact_mod_cast this

theorem placeWordFrom_at_cell (row col dRow dCol : Int)
    (hne : ¬(dRow = 0 ∧ dCol = 0)) :
    ∀ (letters : List Char) (i0 : Nat) (g : Grid) (j : Nat)
      (h : j < letters.length),
    placeWordFrom row col dRow dCol g letters i0
        (row + dRow * ((i0 + j : Nat) : Int))
        (col + dCol * ((i0 + j : Nat) : Int)) =
      letters.get ⟨j, h⟩ := by
  intro letters
  induction letters with
  | nil => intro i0 g j h; exact absurd h (by simp)
  | cons letter rest ih =>
    intro i0 g j h
    match j with
    | 0 =>
      simp only [Nat.add_zero, List.get]
      rw [placeWordFrom]
      rw [placeWordFrom_off_path row col dRow dCol _ _ rest (i0 + 1) _ ?_]
      · rw [updateCell, if_pos ⟨rfl, rfl⟩]
      · intro j' hj' hcell
        have : i0 = i0 + 1 + j' :=
          path_cell_inj dRow dCol hne row col i0 (i0 + 1 + j')
            (by exact_mod_cast hcell.1) (by exact_mod_cast hcell.2)
        omega
    | j + 1 =>
      rw [placeWordFrom]
      have e : i0 + (j + 1) = i0 + 1 + j := by omega
      rw [e]
      have hj : j < rest.length := by simpa using Nat.lt_of_succ_lt_succ h
      rw [ih (i0 + 1) _ j hj]
      simp [List.get]

theorem canPlaceWord_eq_true (g : Grid) (word : List Char)
    (row col direction : Int) :
    canPlaceWord g word row col direction = true ↔
      (0 ≤ row + (getDirectionDeltas direction).1 * ((word.length : Int) - 1) ∧
        row + (getDirectionDeltas direction).1 * ((word.length : Int) - 1) <
          (gridSize : Int) ∧
        0 ≤ col + (getDirectionDeltas direction).2 * ((word.length : Int) - 1) ∧
        col + (getDirectionDeltas direction).2 * ((word.length : Int) - 1) <
          (gridSize : Int)) ∧
      checkConflictsFrom g row col (getDirectionDeltas direction).1
        (getDirectionDeltas direction).2 word 0 = true := by
  rw [canPlaceWord]
  by_cases h : row + (getDirectionDeltas direction).1 *
        ((word.length : Int) - 1) < 0 ∨
      row + (getDirectionDeltas direction).1 * ((word.length : Int) - 1) ≥
        (gridSize : Int) ∨
      col + (getDirectionDeltas direction).2 * ((word.length : Int) - 1) < 0 ∨
      col + (getDirectionDeltas direction).2 * ((word.length : Int) - 1) ≥
        (gridSize : Int)
  · rw [if_pos h]
    simp only [Bool.false_eq_true, false_iff]
    intro hcontra
    rcases hcontra with ⟨⟨h1, h2, h3, h4⟩, _⟩
    rcases h with h | h | h | h <;> omega
  · rw [if_neg h]
    push_neg at h
    constructor
    · intro hcc
      exact ⟨⟨h.1, h.2.1, h.2.2.1, h.2.2.2⟩, hcc⟩
    · intro hcontra
      exact hcontra.2

theorem canPlaceWord_conflicts (g : Grid) (word : List Char)
    (row col direction : Int)
    (h : canPlaceWord g word row col direction = true) :
    ∀ j (hj : j < word.length),
      g (row + (getDirectionDeltas direction).1 * (j : Int))
          (col + (getDirectionDeltas direction).2 * (j : Int)) = emptyCell ∨
      g (row + (getDirectionDeltas direction).1 * (j : Int))
          (col + (getDirectionDeltas direction).2 * (j : Int)) =
        word.get ⟨j, hj⟩ := by
  intro j hj
  have hcc := ((canPlaceWord_eq_true g word row col direction).mp h).2
  have := (checkConflictsFrom_eq_true g row col (getDirectionDeltas direction).1
      (getDirectionDeltas direction).2 word 0).mp hcc j hj
  simpa using this

theorem step_in_bounds (delta : Int)
    (hdelta : delta = -1 ∨ delta = 0 ∨ delta = 1) (s : Int) (L i : Nat)
    (hs0 : 0 ≤ s) (hs : s < (gridSize : Int))
    (he0 : 0 ≤ s + delta * ((L : Int) - 1))
    (he : s + delta * ((L : Int) - 1) < (gridSize : Int)) (hi : i < L) :
    0 ≤ s + delta * (i : Int) ∧ s + delta * (i : Int) < (gridSize : Int) := by
  have hg : (gridSize : Int) = 10 := by norm_num [gridSize]
  rw [hg] at hs he ⊢
  have hi' : (i : Int) ≤ (L : Int) - 1 := by
    have : (i : Int) < (L : Int) := by exact_mod_cast hi
    omega
  have hi0 : 0 ≤ (i : Int) := Int.natCast_nonneg i
  rcases hdelta with h | h | h <;> subst h <;> constructor <;> nlinarith

theorem placeWord_at_cell (g : Grid) (word : List Char)
    (row col direction : Int) :
    ∀ i (h : i < word.length),
      placeWord g word row col direction
          (row + (getDirectionDeltas direction).1 * (i : Int))
          (col + (getDirectionDeltas direction).2 * (i : Int)) =
        word.get ⟨i, h⟩ := by
  intro i h
  have hne := (getDirectionDeltas_small direction).2.2
  rw [placeWord]
  have := placeWordFrom_at_cell row col (getDirectionDeltas direction).1
    (getDirectionDeltas direction).2 hne word 0 g i h
  simpa using this

theorem placeWord_off_path (g : Grid) (word : List Char)
    (row col direction r' c' : Int)
    (hoff : ∀ j, j < word.length →
      ¬(r' = row + (getDirectionDeltas direction).1 * (j : Int) ∧
        c' = col + (getDirectionDeltas direction).2 * (j : Int))) :
    placeWord g word row col direction r' c' = g r' c' := by
  rw [placeWord]
  apply placeWordFrom_off_path
  intro j hj
  simpa using hoff j hj

theorem placeWord_gridOk (g : Grid) (word : List Char)
    (row col direction : Int) (hg : GridOk g) (hw : UpperWord word) :
    GridOk (placeWord g word row col direction) := by
  intro r' c'
  rw [placeWord]
  rcases placeWordFrom_value_or row col (getDirectionDeltas direction).1
      (getDirectionDeltas direction).2 word 0 g r' c' with h | ⟨j, hj, hv⟩
  · rw [h]; exact hg r' c'
  · rw [hv]
    exact Or.inr (hw _ (List.get_mem word j hj))

theorem newPlacement_path_in_bounds (g : Grid) (word : List Char)
    (row col direction : Int) (hr0 : 0 ≤ row) (hr : row < (gridSize : Int))
    (hc0 : 0 ≤ col) (hc : col < (gridSize : Int))
    (hcan : canPlaceWord g word row col direction = true) :
    PathInBounds ⟨word, row, col, direction⟩ := by
  intro i hi
  have hb := ((canPlaceWord_eq_true g word row col direction).mp hcan).1
  have hsm := getDirectionDeltas_small direction
  have h1 := step_in_bounds (getDirectionDeltas direction).1 hsm.1 row
    word.length i hr0 hr hb.1 hb.2.1 hi
  have h2 := step_in_bounds (getDirectionDeltas direction).2 hsm.2.1 col
    word.length i hc0 hc hb.2.2.1 hb.2.2.2 hi
  exact ⟨h1.1, h1.2, h2.1, h2.2⟩

theorem newPlacement_holds (g : Grid) (word : List Char)
    (row col direction : Int) :
    PlacementHolds (placeWord g word row col direction)
      ⟨word, row, col, direction⟩ := by
  intro i hi
  exact placeWord_at_cell g word row col direction i hi

theorem placeWord_preserves_placement (g : Grid) (word : List Char)
    (row col direction : Int) (p : WordPlacement) (hup : UpperWord p.word)
    (hold : PlacementHolds g p)
    (hcan : canPlaceWord g word row col direction = true) :
    PlacementHolds (placeWord g word row col direction) p := by
  intro i hi
  by_cases hon : ∃ j, j < word.length ∧
      (placementCell p i).1 =
        row + (getDirectionDeltas direction).1 * (j : Int) ∧
      (placementCell p i).2 =
        col + (getDirectionDeltas direction).2 * (j : Int)
  · obtain ⟨j, hj, he1, he2⟩ := hon
    have hval := hold i hi
    have hupv : UpperChar (g (placementCell p i).1 (placementCell p i).2) := by
      rw [hval]
      exact hup _ (List.get_mem p.word i hi)
    have hnonempty := upperChar_ne_empty _ hupv
    have hconf := canPlaceWord_conflicts g word row col direction hcan j hj
    rw [← he1, ← he2] at hconf
    have hmatch : g (placementCell p i).1 (placementCell p i).2 =
        word.get ⟨j, hj⟩ := by
      rcases hconf with h | h
      · exact absurd h hnonempty
      · exact h
    rw [he1, he2]
    rw [placeWord_at_cell g word row col direction j hj]
    rw [← hmatch, hval]
  · push_neg at hon
    rw [placeWord_off_path g word row col direction _ _ ?_]
    · exact hold i hi
    · intro j hj hcell
      exact hon j hj hcell.1 hcell.2

theorem tryPlaceWord_inv (word : List Char) (stream : Nat → Nat)
    (hw : UpperWord word) :
    ∀ (fuel : Nat) (g : Grid) (ps : List WordPlacement) (k : Nat),
    EngineInv g ps →
    EngineInv (tryPlaceWord word stream fuel g ps k).grid
      (tryPlaceWord word stream fuel g ps k).placements := by
  intro fuel
  induction fuel with
  | zero => intro g ps k hinv; exact hinv
  | succ fuel ih =>
    intro g ps k hinv
    rw [tryPlaceWord]
    by_cases hcan : canPlaceWord g word ((stream k % gridSize : Nat) : Int)
        ((stream (k + 1) % gridSize : Nat) : Int)
        ((stream (k + 2) % 8 : Nat) : Int) = true
    · rw [if_pos hcan]
      constructor
      · exact placeWord_gridOk g word _ _ _ hinv.1 hw
      · intro p hp
        rcases List.mem_append.mp hp with hold | hnew
        · obtain ⟨hu, hb, hh⟩ := hinv.2 p hold
          exact ⟨hu, hb,
            placeWord_preserves_placement g word _ _ _ p hu hh hcan⟩
        · have hpe : p = ⟨word, ((stream k % gridSize : Nat) : Int),
              ((stream (k + 1) % gridSize : Nat) : Int),
              ((stream (k + 2) % 8 : Nat) : Int)⟩ := by
            simpa using hnew
          subst hpe
          refine ⟨hw, ?_, ?_⟩
          · apply newPlacement_path_in_bounds g word _ _ _ ?_ ?_ ?_ ?_ hcan
            · exact Int.natCast_nonneg _
            · exact_mod_cast Nat.mod_lt _ (by norm_num [gridSize])
            · exact Int.natCast_nonneg _
            · exact_mod_cast Nat.mod_lt _ (by norm_num [gridSize])
          · exact newPlacement_holds g word _ _ _
    · rw [if_neg hcan]
      exact ih g ps (k + 3) hinv

theorem processWords_inv (stream : Nat → Nat) :
    ∀ (words : List (List Char)) (g : Grid) (ps : List WordPlacement)
      (k : Nat), (∀ w ∈ words, UpperWord w) → EngineInv g ps →
    EngineInv (processWords stream words g ps k).1
      (processWords stream words g ps k).2.1 := by
  intro words
  induction words with
  | nil => intro g ps k _ hinv; exact hinv
  | cons word rest ih =>
    intro g ps k hws hinv
    rw [processWords]
    exact ih _ _ _ (fun w hw => hws w (List.mem_cons_of_mem _ hw))
      (tryPlaceWord_inv word stream (hws word (List.mem_cons_self _ _))
        100 g ps k hinv)

theorem tryPlaceWord_paths (word : List Char) (stream : Nat → Nat) :
    ∀ (fuel : Nat) (g : Grid) (ps : List WordPlacement) (k : Nat),
    (∀ p ∈ ps, PathInBounds p) →
    ∀ p ∈ (tryPlaceWord word stream fuel g ps k).placements,
      PathInBounds p := by
  intro fuel
  induction fuel with
  | zero => intro g ps k hps; exact hps
  | succ fuel ih =>
    intro g ps k hps
    rw [tryPlaceWord]
    by_cases hcan : canPlaceWord g word ((stream k % gridSize : Nat) : Int)
        ((stream (k + 1) % gridSize : Nat) : Int)
        ((stream (k + 2) % 8 : Nat) : Int) = true
    · rw [if_pos hcan]
      intro p hp
      rcases List.mem_append.mp hp with hold | hnew
      · exact hps p hold
      · have hpe : p = ⟨word, ((stream k % gridSize : Nat) : Int),
            ((stream (k + 1) % gridSize : Nat) : Int),
            ((stream (k + 2) % 8 : Nat) : Int)⟩ := by simpa using hnew
        subst hpe
        apply newPlacement_path_in_bounds g word _ _ _ ?_ ?_ ?_ ?_ hcan
        · exact Int.natCast_nonneg _
        · exact_mod_cast Nat.mod_lt _ (by norm_num [gridSize])
        · exact Int.natCast_nonneg _
        · exact_mod_cast Nat.mod_lt _ (by norm_num [gridSize])
    · rw [if_neg hcan]
      exact ih g ps (k + 3) hps

theorem processWords_paths (stream : Nat → Nat) :
    ∀ (words : List (List Char)) (g : Grid) (ps : List WordPlacement)
      (k : Nat), (∀ p ∈ ps, PathInBounds p) →
    ∀ p ∈ (processWords stream words g ps k).2.1, PathInBounds p := by
  intro words
  induction words with
  | nil => intro g ps k hps; exact hps
  | cons word rest ih =>
    intro g ps k hps
    rw [processWords]
    exact ih _ _ _ (tryPlaceWord_paths word stream 100 g ps k hps)

theorem fillLetter_upper (v : Nat) : UpperChar (fillLetter v) := by
  rw [fillLetter]
  have h : v % 26 < 26 := Nat.mod_lt _ (by norm_num)
  generalize v % 26 = m at h
  interval_cases m <;> decide

theorem fillCells_preserves_nonempty (stream : Nat → Nat) :
    ∀ (cells : List (Int × Int)) (g : Grid) (k : Nat) (r c : Int),
    g r c ≠ emptyCell → (fillCells stream cells g k).1 r c = g r c := by
  intro cells
  induction cells with
  | nil => intro g k r c _; rfl
  | cons rc rest ih =>
    intro g k r c hne
    rw [fillCells]
    by_cases he : g rc.1 rc.2 = emptyCell
    · rw [if_pos he]
      have hcell : ¬(r = rc.1 ∧ c = rc.2) := by
        intro hc
        exact hne (hc.1 ▸ hc.2 ▸ he)
      rw [ih _ _ r c ?_]
      · rw [updateCell, if_neg hcell]
      · rw [updateCell, if_neg hcell]
        exact hne
    · rw [if_neg he]
      exact ih g k r c hne

theorem updateCell_gridOk (g : Grid) (r c : Int) (v : Char) (hg : GridOk g)
    (hv : UpperChar v) : GridOk (updateCell g r c v) := by
  intro r' c'
  rw [updateCell]
  by_cases h : r' = r ∧ c' = c
  · rw [if_pos h]; exact Or.inr hv
  · rw [if_neg h]; exact hg r' c'

theorem fillCells_upper (stream : Nat → Nat) :
    ∀ (cells : List (Int × Int)) (g : Grid) (k : Nat), GridOk g →
    ∀ rc ∈ cells, UpperChar ((fillCells stream cells g k).1 rc.1 rc.2) := by
  intro cells
  induction cells with
  | nil => intro g k _ rc h; exact absurd h (by simp)
  | cons a rest ih =>
    intro g k hg rc hrc
    rw [fillCells]
    by_cases he : g a.1 a.2 = emptyCell
    · rw [if_pos he]
      have hg' : GridOk (updateCell g a.1 a.2 (fillLetter (stream k))) :=
        updateCell_gridOk g a.1 a.2 _ hg (fillLetter_upper _)
      rcases List.mem_cons.mp hrc with hra | hrr
      · subst hra
        have hval : updateCell g rc.1 rc.2 (fillLetter (stream k)) rc.1 rc.2 =
            fillLetter (stream k) := by
          rw [updateCell, if_pos ⟨rfl, rfl⟩]
        rw [fillCells_preserves_nonempty stream rest _ _ rc.1 rc.2 ?_]
        · rw [hval]; exact fillLetter_upper _
        · rw [hval]
          exact upperChar_ne_empty _ (fillLetter_upper _)
      · exact ih _ _ hg' rc hrr
    · rw [if_neg he]
      rcases List.mem_cons.mp hrc with hra | hrr
      · subst hra
        have hup : UpperChar (g rc.1 rc.2) := (hg rc.1 rc.2).resolve_left he
        rw [fillCells_preserves_nonempty stream rest g k rc.1 rc.2
          (upperChar_ne_empty _ hup)]
        exact hup
      · exact ih g k hg rc hrr

theorem mem_allCells (r c : Int) (hr0 : 0 ≤ r) (hr : r < (gridSize : Int))
    (hc0 : 0 ≤ c) (hc : c < (gridSize : Int)) : (r, c) ∈ allCells := by
  norm_num [gridSize] at hr hc
  interval_cases r <;> interval_cases c <;> decide

theorem emptyGrid_gridOk : GridOk emptyGrid := fun _ _ => Or.inl rfl

theorem extract_of_holds (g : Grid) (p : WordPlacement) (hb : PathInBounds p)
    (hh : PlacementHolds g p) : extractWord g p = p.word := by
  apply List.ext_get
  · simp [extractWord]
  · intro i h1 h2
    have hi : i < p.word.length := by simpa [extractWord] using h1
    have hcell := hb i hi
    have hval := hh i hi
    simp only [extractWord, List.get_eq_getElem, List.getElem_map,
      List.getElem_range]
    rw [if_pos ⟨hcell.1, hcell.2.1, hcell.2.2.1, hcell.2.2.2⟩]
    exact hval

theorem generate_engineInv (words : List (List Char)) (stream : Nat → Nat)
    (hw : ∀ w ∈ words, UpperWord w) :
    EngineInv (processWords stream words emptyGrid [] 0).1
      (processWords stream words emptyGrid [] 0).2.1 :=
  processWords_inv stream words emptyGrid [] 0 hw
    ⟨emptyGrid_gridOk, by simp⟩

theorem generate_placements_hold (words : List (List Char))
    (stream : Nat → Nat) (hw : ∀ w ∈ words, UpperWord w) :
    ∀ p ∈ (generateWordSearchGrid words stream).2,
      UpperWord p.word ∧ PathInBounds p ∧
      PlacementHolds (generateWordSearchGrid words stream).1 p := by
  have hinv := generate_engineInv words stream hw
  intro p hp
  have hmem : p ∈ (processWords stream words emptyGrid [] 0).2.1 := hp
  obtain ⟨hu, hb, hh⟩ := hinv.2 p hmem
  refine ⟨hu, hb, ?_⟩
  intro i hi
  have hval := hh i hi
  have hup : UpperChar ((processWords stream words emptyGrid [] 0).1
      (placementCell p i).1 (placementCell p i).2) := by
    rw [hval]
    exact hu _ (List.get_mem p.word i hi)
  show (fillCells stream allCells (processWords stream words emptyGrid [] 0).1
      (processWords stream words emptyGrid [] 0).2.2).1
      (placementCell p i).1 (placementCell p i).2 = p.word.get ⟨i, hi⟩
  rw [fillCells_preserves_nonempty stream allCells _ _ _ _
    (upperChar_ne_empty _ hup)]
  exact hval

theorem checkConflicts_empty (row col dRow dCol : Int) :
    ∀ (letters : List Char) (i0 : Nat),
    checkConflictsFrom emptyGrid row col dRow dCol letters i0 = true := by
  intro letters
  induction letters with
  | nil => intro i0; rfl
  | cons letter rest ih =>
    intro i0
    rw [checkConflictsFrom]
    rw [if_neg ?_]
    · exact ih (i0 + 1)
    · intro hc
      exact hc.1 rfl

theorem tryPlaceWord_attempts_le (word : List Char) (stream : Nat → Nat) :
    ∀ (fuel : Nat) (g : Grid) (ps : List WordPlacement) (k : Nat),
    (tryPlaceWord word stream fuel g ps k).attempts ≤ fuel := by
  intro fuel
  induction fuel with
  | zero => intro g ps k; exact Nat.le_refl 0
  | succ fuel ih =>
    intro g ps k
    rw [tryPlaceWord]
    by_cases hcan : canPlaceWord g word ((stream k % gridSize : Nat) : Int)
        ((stream (k + 1) % gridSize : Nat) : Int)
        ((stream (k + 2) % 8 : Nat) : Int) = true
    · rw [if_pos hcan]
      show 1 ≤ fuel + 1
      omega
    · rw [if_neg hcan]
      have := ih g ps (k + 3)
      show (tryPlaceWord word stream fuel g ps (k + 3)).attempts + 1 ≤
        fuel + 1
      omega

theorem tryPlaceWord_attempts_full (word : List Char) (stream : Nat → Nat) :
    ∀ (fuel : Nat) (g : Grid) (ps : List WordPlacement) (k : Nat),
    (tryPlaceWord word stream fuel g ps k).placed = false →
    (tryPlaceWord word stream fuel g ps k).attempts = fuel := by
  intro fuel
  induction fuel with
  | zero => intro g ps k _; rfl
  | succ fuel ih =>
    intro g ps k hnp
    rw [tryPlaceWord] at hnp ⊢
    by_cases hcan : canPlaceWord g word ((stream k % gridSize : Nat) : Int)
        ((stream (k + 1) % gridSize : Nat) : Int)
        ((stream (k + 2) % 8 : Nat) : Int) = true
    · rw [if_pos hcan] at hnp
      exact absurd hnp (by simp)
    · rw [if_neg hcan] at hnp ⊢
      have := ih g ps (k + 3) hnp
      show (tryPlaceWord word stream fuel g ps (k + 3)).attempts + 1 =
        fuel + 1
      omega

theorem tryPlaceWord_not_placed_grid (word : List Char) (stream : Nat → Nat) :
    ∀ (fuel : Nat) (g : Grid) (ps : List WordPlacement) (k : Nat),
    (tryPlaceWord word stream fuel g ps k).placed = false →
    (tryPlaceWord word stream fuel g ps k).grid = g := by
  intro fuel
  induction fuel with
  | zero => intro g ps k _; rfl
  | succ fuel ih =>
    intro g ps k hnp
    rw [tryPlaceWord] at hnp ⊢
    by_cases hcan : canPlaceWord g word ((stream k % gridSize : Nat) : Int)
        ((stream (k + 1) % gridSize : Nat) : Int)
        ((stream (k + 2) % 8 : Nat) : Int) = true
    · rw [if_pos hcan] at hnp
      exact absurd hnp (by simp)
    · rw [if_neg hcan] at hnp ⊢
      exact ih g ps (k + 3) hnp

theorem tryPlaceWord_placements_extend (word : List Char)
    (stream : Nat → Nat) :
    ∀ (fuel : Nat) (g : Grid) (ps : List WordPlacement) (k : Nat),
    ∃ tail, (tryPlaceWord word stream fuel g ps k).placements = ps ++ tail ∧
      tail.length ≤ 1 := by
  intro fuel
  induction fuel with
  | zero => intro g ps k; exact ⟨[], by simp [tryPlaceWord], by simp⟩
  | succ fuel ih =>
    intro g ps k
    rw [tryPlaceWord]
    by_cases hcan : canPlaceWord g word ((stream k % gridSize : Nat) : Int)
        ((stream (k + 1) % gridSize : Nat) : Int)
        ((stream (k + 2) % 8 : Nat) : Int) = true
    · rw [if_pos hcan]
      exact ⟨[⟨word, _, _, _⟩], rfl, by simp⟩
    · rw [if_neg hcan]
      exact ih g ps (k + 3)

theorem processWords_placements_le (stream : Nat → Nat) :
    ∀ (words : List (List Char)) (g : Grid) (ps : List WordPlacement)
      (k : Nat),
    (processWords stream words g ps k).2.1.length ≤
      ps.length + words.length := by
  intro words
  induction words with
  | nil => intro g ps k; simp [processWords]
  | cons word rest ih =>
    intro g ps k
    rw [processWords]
    obtain ⟨tail, he, hl⟩ :=
      tryPlaceWord_placements_extend word stream 100 g ps k
    have hrec := ih (tryPlaceWord word stream 100 g ps k).grid
      (tryPlaceWord word stream 100 g ps k).placements
      (tryPlaceWord word stream 100 g ps k).k
    rw [he] at hrec ⊢
    simp only [List.length_append, List.length_cons] at hrec ⊢
    omega

theorem loadVocabLoop_eq :
    ∀ (lines acc : List String),
    loadVocabLoop lines acc = acc ++ usableLines lines := by
  intro lines
  induction lines with
  | nil => intro acc; simp [loadVocabLoop, usableLines]
  | cons line rest ih =>
    intro acc
    rw [loadVocabLoop]
    by_cases hb : trimWord line ≠ ""
    · rw [if_pos hb, ih]
      have : usableLines (line :: rest) = trimWord line :: usableLines rest := by
        simp [usableLines, List.filter_cons, hb]
      rw [this]
      simp
    · rw [if_neg hb, ih]
      push_neg at hb
      have : usableLines (line :: rest) = usableLines rest := by
        simp [usableLines, List.filter_cons, hb]
      rw [this]

theorem loadCustomVocab_eq (lines : List String) :
    loadCustomVocab lines =
      if (usableLines lines).length < 10 then
        Except.error "vocabulary file must contain at least 10 words"
      else Except.ok (usableLines lines) := by
  rw [loadCustomVocab, loadVocabLoop_eq lines []]
  simp

theorem filterWordsLoop_fst (maxLength : Nat) :
    ∀ (words filteredWords removedWords : List String),
    (filterWordsLoop maxLength words filteredWords removedWords).1 =
      filteredWords ++ words.filter fun w => w.utf8ByteSize ≤ maxLength := by
  intro words
  induction words with
  | nil => intro f r; simp [filterWordsLoop]
  | cons word rest ih =>
    intro f r
    rw [filterWordsLoop]
    by_cases hle : word.utf8ByteSize ≤ maxLength
    · rw [if_pos hle, ih]
      simp [List.filter_cons, hle]
    · rw [if_neg hle, ih]
      simp [List.filter_cons, hle]

theorem filterWordsByLength_eq (words : List String) (maxLength : Nat) :
    filterWordsByLength words maxLength =
      words.filter fun w => w.utf8ByteSize ≤ maxLength := by
  rw [filterWordsByLength, filterWordsLoop_fst]
  simp

theorem get_cons_eraseIdx_perm {α : Type} (l : List α) :
    ∀ (i : Nat) (h : i < l.length),
    l.Perm (l.get ⟨i, h⟩ :: l.eraseIdx i) := by
  induction l with
  | nil => intro i h; exact absurd h (by simp)
  | cons x xs ih =>
    intro i h
    match i with
    | 0 => exact List.Perm.refl _
    | i + 1 =>
      have hi : i < xs.length := by simpa using Nat.lt_of_succ_lt_succ h
      have hperm := ih i hi
      have h1 : (x :: xs).Perm (x :: (xs.get ⟨i, hi⟩ :: xs.eraseIdx i)) :=
        hperm.cons x
      have h2 : (x :: (xs.get ⟨i, hi⟩ :: xs.eraseIdx i)).Perm
          (xs.get ⟨i, hi⟩ :: (x :: xs.eraseIdx i)) :=
        List.Perm.swap _ _ _
      exact h1.trans h2

theorem swap_remove_perm {α : Type} :
    ∀ (l : List α) (hne : l ≠ []) (i : Nat), i < l.length →
    ((l.set i (l.getLast hne)).dropLast).Perm (l.eraseIdx i) := by
  intro l
  induction l with
  | nil => intro hne; exact absurd rfl hne
  | cons x xs ih =>
    intro hne i hi
    match i with
    | 0 =>
      match xs with
      | [] => exact List.Perm.refl _
      | y :: ys =>
        have hgl : (x :: y :: ys).getLast hne =
            (y :: ys).getLast (List.cons_ne_nil y ys) :=
          List.getLast_cons (List.cons_ne_nil y ys)
        rw [hgl]
        show (((y :: ys).getLast (List.cons_ne_nil y ys)) ::
            (y :: ys)).dropLast.Perm (y :: ys)
        rw [List.dropLast_cons₂]
        have hdecomp := List.dropLast_append_getLast (List.cons_ne_nil y ys)
        have h1 := (List.perm_append_singleton
          ((y :: ys).getLast (List.cons_ne_nil y ys))
          ((y :: ys).dropLast)).symm
        rw [hdecomp] at h1
        exact h1
    | i + 1 =>
      match xs with
      | [] => exact absurd hi (by simp)
      | y :: ys =>
        have hi' : i < (y :: ys).length := by
          simpa using Nat.lt_of_succ_lt_succ hi
        have hgl : (x :: y :: ys).getLast hne =
            (y :: ys).getLast (List.cons_ne_nil y ys) :=
          List.getLast_cons (List.cons_ne_nil y ys)
        rw [hgl]
        show (x :: (y :: ys).set i
            ((y :: ys).getLast (List.cons_ne_nil y ys))).dropLast.Perm
          (x :: (y :: ys).eraseIdx i)
        obtain ⟨z, zs, hset⟩ : ∃ z zs, (y :: ys).set i
            ((y :: ys).getLast (List.cons_ne_nil y ys)) = z :: zs := by
          cases hs : (y :: ys).set i
              ((y :: ys).getLast (List.cons_ne_nil y ys)) with
          | nil =>
            have := congrArg List.length hs
            simp at this
          | cons z zs => exact ⟨z, zs, rfl⟩
        rw [hset, List.dropLast_cons₂]
        apply List.Perm.cons
        rw [← hset]
        exact ih (List.cons_ne_nil y ys) i hi'

theorem selectWordsLoop_length (stream : Nat → Nat) :
    ∀ (count : Nat) (temp acc : List String) (k : Nat),
    (selectWordsLoop stream count temp acc k).1.length =
      acc.length + min count temp.length := by
  intro count
  induction count with
  | zero => intro temp acc k; simp [selectWordsLoop]
  | succ n ih =>
    intro temp acc k
    match temp with
    | [] => simp [selectWordsLoop]
    | t :: ts =>
      rw [selectWordsLoop]
      rw [ih]
      have hlen : (((t :: ts).set (stream k % (t :: ts).length)
          ((t :: ts).getLast (List.cons_ne_nil t ts))).dropLast).length =
          ts.length := by
        simp
      rw [hlen]
      simp only [List.length_append, List.length_cons, List.length_nil]
      omega

theorem selectWordsLoop_mem (stream : Nat → Nat) :
    ∀ (count : Nat) (temp acc : List String) (k : Nat),
    ∀ w ∈ (selectWordsLoop stream count temp acc k).1,
      w ∈ acc ∨ ∃ v ∈ temp, w = strToUpper v := by
  intro count
  induction count with
  | zero =>
    intro temp acc k w hw
    exact Or.inl (by simpa [selectWordsLoop] using hw)
  | succ n ih =>
    intro temp acc k w hw
    match temp with
    | [] => exact Or.inl (by simpa [selectWordsLoop] using hw)
    | t :: ts =>
      rw [selectWordsLoop] at hw
      have hidx : stream k % (t :: ts).length < (t :: ts).length :=
        Nat.mod_lt _ (List.length_pos_of_ne_nil (List.cons_ne_nil t ts))
      rcases ih _ _ _ w hw with hacc | ⟨v, hv, hvw⟩
      · rcases List.mem_append.mp hacc with h | h
        · exact Or.inl h
        · refine Or.inr ⟨(t :: ts).get ⟨stream k % (t :: ts).length, hidx⟩,
            List.get_mem _ _ _, ?_⟩
          simpa using h
      · refine Or.inr ⟨v, ?_, hvw⟩
        have hperm := swap_remove_perm (t :: ts) (List.cons_ne_nil t ts)
          (stream k % (t :: ts).length)
          (Nat.mod_lt _ (List.length_pos_of_ne_nil (List.cons_ne_nil t ts)))
        have hmem := hperm.mem_iff.mp hv
        exact List.eraseIdx_subset _ _ hmem

theorem selectWordsLoop_nodup (stream : Nat → Nat) :
    ∀ (count : Nat) (temp acc : List String) (k : Nat),
    (acc ++ temp.map strToUpper).Nodup →
    (selectWordsLoop stream count temp acc k).1.Nodup := by
  intro count
  induction count with
  | zero =>
    intro temp acc k h
    rw [selectWordsLoop]
    exact h.of_append_left
  | succ n ih =>
    intro temp acc k h
    match temp with
    | [] =>
      rw [selectWordsLoop]
      exact h.of_append_left
    | t :: ts =>
      rw [selectWordsLoop]
      apply ih
      have hidx : stream k % (t :: ts).length < (t :: ts).length :=
        Nat.mod_lt _ (List.length_pos_of_ne_nil (List.cons_ne_nil t ts))
      have hswap := swap_remove_perm (t :: ts) (List.cons_ne_nil t ts)
        (stream k % (t :: ts).length) hidx
      have hget := get_cons_eraseIdx_perm (t :: ts)
        (stream k % (t :: ts).length) hidx
      have hperm1 : (((t :: ts).set (stream k % (t :: ts).length)
          ((t :: ts).getLast (List.cons_ne_nil t ts))).dropLast.map
          strToUpper).Perm
          (((t :: ts).eraseIdx (stream k % (t :: ts).length)).map
            strToUpper) := hswap.map strToUpper
      have hperm2 : ((t :: ts).map strToUpper).Perm
          (strToUpper ((t :: ts).get ⟨stream k % (t :: ts).length, hidx⟩) ::
            ((t :: ts).eraseIdx (stream k % (t :: ts).length)).map
              strToUpper) := by
        have := hget.map strToUpper
        simpa using this
      have hgoal : ((acc ++ [strToUpper ((t :: ts).get
          ⟨stream k % (t :: ts).length, hidx⟩)]) ++
          ((t :: ts).set (stream k % (t :: ts).length)
            ((t :: ts).getLast (List.cons_ne_nil t ts))).dropLast.map
            strToUpper).Perm (acc ++ (t :: ts).map strToUpper) := by
        have step1 : ((acc ++ [strToUpper ((t :: ts).get
            ⟨stream k % (t :: ts).length, hidx⟩)]) ++
            ((t :: ts).set (stream k % (t :: ts).length)
              ((t :: ts).getLast (List.cons_ne_nil t ts))).dropLast.map
              strToUpper).Perm
            ((acc ++ [strToUpper ((t :: ts).get
              ⟨stream k % (t :: ts).length, hidx⟩)]) ++
              ((t :: ts).eraseIdx (stream k % (t :: ts).length)).map
                strToUpper) :=
          List.Perm.append_left _ hperm1
        have step2 : ((acc ++ [strToUpper ((t :: ts).get
            ⟨stream k % (t :: ts).length, hidx⟩)]) ++
            ((t :: ts).eraseIdx (stream k % (t :: ts).length)).map
              strToUpper) =
            acc ++ (strToUpper ((t :: ts).get
              ⟨stream k % (t :: ts).length, hidx⟩) ::
              ((t :: ts).eraseIdx (stream k % (t :: ts).length)).map
                strToUpper) := by
          simp
        have step3 : (acc ++ (strToUpper ((t :: ts).get
            ⟨stream k % (t :: ts).length, hidx⟩) ::
            ((t :: ts).eraseIdx (stream k % (t :: ts).length)).map
              strToUpper)).Perm (acc ++ (t :: ts).map strToUpper) :=
          List.Perm.append_left _ hperm2.symm
        exact (step2 ▸ step1).trans step3
      exact hgoal.nodup_iff.mpr h

/-- Start cells from which a word of length exactly `gridSize` fits, per
direction: column 0 for RIGHT, column `gridSize - 1` for LEFT, row 0 for
DOWN, row `gridSize - 1` for UP, and the matching corner for each
diagonal. -/
def fullLengthStart (row col d : Int) : Prop :=
  (d = RIGHT ∧ col = 0) ∨ (d = LEFT ∧ col = (gridSize : Int) - 1) ∨
  (d = DOWN ∧ row = 0) ∨ (d = UP ∧ row = (gridSize : Int) - 1) ∨
  (d = DOWN_RIGHT ∧ row = 0 ∧ col = 0) ∨
  (d = DOWN_LEFT ∧ row = 0 ∧ col = (gridSize : Int) - 1) ∨
  (d = UP_RIGHT ∧ row = (gridSize : Int) - 1 ∧ col = 0) ∨
  (d = UP_LEFT ∧ row = (gridSize : Int) - 1 ∧ col = (gridSize : Int) - 1)

instance (row col d : Int) : Decidable (fullLengthStart row col d) :=
  inferInstanceAs (Decidable (_ ∨ _))

/-- C1: for words of uppercase letters (non-empty, length at most
`gridSize`), every placement recorded by `generateWordSearchGrid` reads
back from the final grid exactly as the placed word, and consequently
`verifyWordPlacements` reports a pass for every recorded placement. -/
theorem claim1_placements_verified (words : List (List Char))
    (stream : Nat → Nat)
    (hw : ∀ w ∈ words, w ≠ [] ∧ w.length ≤ gridSize ∧ UpperWord w) :
    (∀ p ∈ (generateWordSearchGrid words stream).2,
      extractWord (generateWordSearchGrid words stream).1 p = p.word) ∧
    (∀ b ∈ verifyWordPlacements (generateWordSearchGrid words stream).1
      (generateWordSearchGrid words stream).2, b = true) := by
  have hmain := generate_placements_hold words stream
    (fun w h => (hw w h).2.2)
  have h1 : ∀ p ∈ (generateWordSearchGrid words stream).2,
      extractWord (generateWordSearchGrid words stream).1 p = p.word := by
    intro p hp
    obtain ⟨_, hb, hh⟩ := hmain p hp
    exact extract_of_holds _ p hb hh
  refine ⟨h1, ?_⟩
  intro b hb
  rw [verifyWordPlacements] at hb
  obtain ⟨p, hp, rfl⟩ := List.mem_map.mp hb
  simp [h1 p hp]

/-- Witness for C1 at the single word CAT and the constant-zero random
stream. -/
theorem claim1_witness :
    (∀ w ∈ [['C', 'A', 'T']], w ≠ [] ∧ w.length ≤ gridSize ∧ UpperWord w) ∧
    (∀ p ∈ (generateWordSearchGrid [['C', 'A', 'T']] (fun _ => 0)).2,
      extractWord (generateWordSearchGrid [['C', 'A', 'T']] (fun _ => 0)).1
        p = p.word) ∧
    (∀ b ∈ verifyWordPlacements
      (generateWordSearchGrid [['C', 'A', 'T']] (fun _ => 0)).1
      (generateWordSearchGrid [['C', 'A', 'T']] (fun _ => 0)).2,
      b = true) :=
  ⟨by decide,
   (claim1_placements_verified [['C', 'A', 'T']] (fun _ => 0) (by decide)).1,
   (claim1_placements_verified [['C', 'A', 'T']] (fun _ => 0) (by decide)).2⟩

/-- C2: for words of uppercase letters of length at most `gridSize`, every
cell of the returned grid holds an uppercase letter `A`–`Z` and no cell
still holds the empty sentinel, including when zero words were placed. -/
theorem claim2_grid_fully_populated (words : List (List Char))
    (stream : Nat → Nat)
    (hw : ∀ w ∈ words, UpperWord w ∧ w.length ≤ gridSize) :
    ∀ r c : Int, 0 ≤ r → r < (gridSize : Int) → 0 ≤ c →
      c < (gridSize : Int) →
      'A' ≤ (generateWordSearchGrid words stream).1 r c ∧
      (generateWordSearchGrid words stream).1 r c ≤ 'Z' ∧
      (generateWordSearchGrid words stream).1 r c ≠ emptyCell := by
  intro r c hr0 hr hc0 hc
  have hinv := generate_engineInv words stream (fun w h => (hw w h).1)
  have hmem := mem_allCells r c hr0 hr hc0 hc
  have hfill := fillCells_upper stream allCells
    (processWords stream words emptyGrid [] 0).1
    (processWords stream words emptyGrid [] 0).2.2 hinv.1 (r, c) hmem
  have hupper : UpperChar ((generateWordSearchGrid words stream).1 r c) :=
    hfill
  exact ⟨hupper.1, hupper.2, upperChar_ne_empty _ hupper⟩

/-- Witness for C2 with an empty word list (zero words placed) at cell
`(0, 0)`. -/
theorem claim2_witness :
    (∀ w ∈ ([] : List (List Char)), UpperWord w ∧ w.length ≤ gridSize) ∧
    ('A' ≤ (generateWordSearchGrid [] (fun _ => 0)).1 0 0 ∧
     (generateWordSearchGrid [] (fun _ => 0)).1 0 0 ≤ 'Z' ∧
     (generateWordSearchGrid [] (fun _ => 0)).1 0 0 ≠ emptyCell) :=
  ⟨by decide,
   claim2_grid_fully_populated [] (fun _ => 0) (by decide) 0 0 (by decide)
     (by decide) (by decide) (by decide)⟩

/-- C3: a placement attempt succeeds only when each already-occupied cell
on its path holds the word's letter at that offset; an attempt whose path
meets a differently-lettered occupied cell fails, and while a word's
attempt loop keeps failing the grid stays unchanged. -/
theorem claim3_conflict_rule (g : Grid) (w : List Char) (row col d : Int) :
    (canPlaceWord g w row col d = true →
      ∀ (i : Nat) (h : i < w.length),
        g (row + (getDirectionDeltas d).1 * ((i : Nat) : Int))
            (col + (getDirectionDeltas d).2 * ((i : Nat) : Int)) ≠
          emptyCell →
        g (row + (getDirectionDeltas d).1 * ((i : Nat) : Int))
            (col + (getDirectionDeltas d).2 * ((i : Nat) : Int)) =
          w.get ⟨i, h⟩) ∧
    (∀ (i : Nat) (h : i < w.length),
      g (row + (getDirectionDeltas d).1 * ((i : Nat) : Int))
          (col + (getDirectionDeltas d).2 * ((i : Nat) : Int)) ≠
        emptyCell →
      g (row + (getDirectionDeltas d).1 * ((i : Nat) : Int))
          (col + (getDirectionDeltas d).2 * ((i : Nat) : Int)) ≠
        w.get ⟨i, h⟩ →
      canPlaceWord g w row col d = false) ∧
    (∀ (stream : Nat → Nat) (fuel : Nat) (ps : List WordPlacement)
      (k : Nat),
      (tryPlaceWord w stream fuel g ps k).placed = false →
      (tryPlaceWord w stream fuel g ps k).grid = g) := by
  refine ⟨?_, ?_, ?_⟩
  · intro hcan i h hne
    exact (canPlaceWord_conflicts g w row col d hcan i h).resolve_left hne
  · intro i h hne hneq
    cases hcan : canPlaceWord g w row col d with
    | false => rfl
    | true =>
      exact absurd
        ((canPlaceWord_conflicts g w row col d hcan i h).resolve_left hne)
        hneq
  · intro stream fuel ps k hnp
    exact tryPlaceWord_not_placed_grid w stream fuel g ps k hnp

/-- Witness for C3: a grid holding `Z` at `(0, 1)` rejects `AB` placed
rightwards from the origin, and the whole 100-attempt loop under the
constant-zero stream leaves that grid unchanged. -/
theorem claim3_witness :
    canPlaceWord (updateCell emptyGrid 0 1 'Z') ['A', 'B'] 0 0 0 = false ∧
    (tryPlaceWord ['A', 'B'] (fun _ => 0) 100
      (updateCell emptyGrid 0 1 'Z') [] 0).placed = false ∧
    (tryPlaceWord ['A', 'B'] (fun _ => 0) 100
      (updateCell emptyGrid 0 1 'Z') [] 0).grid =
      updateCell emptyGrid 0 1 'Z' :=
  ⟨(claim3_conflict_rule (updateCell emptyGrid 0 1 'Z') ['A', 'B']
      0 0 0).2.1 1 (by decide) (by decide) (by decide),
   by decide,
   (claim3_conflict_rule (updateCell emptyGrid 0 1 'Z') ['A', 'B']
      0 0 0).2.2 (fun _ => 0) 100 [] 0 (by decide)⟩

/-- C5: the attempt loop for a word performs at most 100 attempts, performs
exactly 100 when the word stays unplaced, processing always continues with
the remaining words, and earlier placements are never removed. -/
theorem claim5_attempt_loop (w : List Char) (stream : Nat → Nat) (g : Grid)
    (ps : List WordPlacement) (k : Nat) :
    (tryPlaceWord w stream 100 g ps k).attempts ≤ 100 ∧
    ((tryPlaceWord w stream 100 g ps k).placed = false →
      (tryPlaceWord w stream 100 g ps k).attempts = 100) ∧
    (∀ rest : List (List Char),
      processWords stream (w :: rest) g ps k =
        processWords stream rest (tryPlaceWord w stream 100 g ps k).grid
          (tryPlaceWord w stream 100 g ps k).placements
          (tryPlaceWord w stream 100 g ps k).k) ∧
    (∃ tail, (tryPlaceWord w stream 100 g ps k).placements = ps ++ tail ∧
      tail.length ≤ 1) := by
  refine ⟨tryPlaceWord_attempts_le w stream 100 g ps k,
    tryPlaceWord_attempts_full w stream 100 g ps k, ?_,
    tryPlaceWord_placements_extend w stream 100 g ps k⟩
  intro rest
  rw [processWords]

/-- Witness for C5: the unplaceable attempt loop of `claim3_witness`
performs exactly 100 attempts, and processing that word as the head of a
word list steps to the remaining words. -/
theorem claim5_witness :
    (tryPlaceWord ['A', 'B'] (fun _ => 0) 100
      (updateCell emptyGrid 0 1 'Z') [] 0).attempts ≤ 100 ∧
    (tryPlaceWord ['A', 'B'] (fun _ => 0) 100
      (updateCell emptyGrid 0 1 'Z') [] 0).attempts = 100 ∧
    processWords (fun _ => 0) [['A', 'B']]
      (updateCell emptyGrid 0 1 'Z') [] 0 =
      processWords (fun _ => 0) []
        (tryPlaceWord ['A', 'B'] (fun _ => 0) 100
          (updateCell emptyGrid 0 1 'Z') [] 0).grid
        (tryPlaceWord ['A', 'B'] (fun _ => 0) 100
          (updateCell emptyGrid 0 1 'Z') [] 0).placements
        (tryPlaceWord ['A', 'B'] (fun _ => 0) 100
          (updateCell emptyGrid 0 1 'Z') [] 0).k ∧
    (∃ tail, (tryPlaceWord ['A', 'B'] (fun _ => 0) 100
      (updateCell emptyGrid 0 1 'Z') [] 0).placements = [] ++ tail ∧
      tail.length ≤ 1) :=
  ⟨(claim5_attempt_loop ['A', 'B'] (fun _ => 0)
      (updateCell emptyGrid 0 1 'Z') [] 0).1,
   (claim5_attempt_loop ['A', 'B'] (fun _ => 0)
      (updateCell emptyGrid 0 1 'Z') [] 0).2.1 (by decide),
   (claim5_attempt_loop ['A', 'B'] (fun _ => 0)
      (updateCell emptyGrid 0 1 'Z') [] 0).2.2.1 [],
   (claim5_attempt_loop ['A', 'B'] (fun _ => 0)
      (updateCell emptyGrid 0 1 'Z') [] 0).2.2.2⟩

/-- Counterexample to C4 as stated: a word of length exactly `gridSize`
placed LEFT from start cell `(5, 9)` is accepted by `canPlaceWord`, yet
that start cell has neither row 0 nor column 0, contradicting the claim
that axis-aligned placements of full-length words are accepted only from
row/col 0. -/
theorem claim4_counterexample :
    (List.replicate 10 'A').length = gridSize ∧
    canPlaceWord emptyGrid (List.replicate 10 'A') 5 9 LEFT = true ∧
    ¬((5 : Int) = 0 ∨ (9 : Int) = 0) := by decide

/-- C4 (amended): for a word of length exactly `gridSize` and a start cell
inside the grid, `canPlaceWord` accepts only the start cells from which the
word fits — the start coordinate on the moving axis must be 0 for a
positive delta and `gridSize - 1` for a negative one (`fullLengthStart`);
on the empty grid exactly those cells are accepted, and every other start
cell is rejected by the bounds check (the end coordinate falls outside
`[0, gridSize)` on some axis) before any letter is written. -/
theorem claim4_boundary (w : List Char) (hlen : w.length = gridSize)
    (row col d : Int) (hr0 : 0 ≤ row) (hr : row < (gridSize : Int))
    (hc0 : 0 ≤ col) (hc : col < (gridSize : Int)) (hd0 : 0 ≤ d)
    (hd : d < 8) :
    (canPlaceWord emptyGrid w row col d = true ↔
      fullLengthStart row col d) ∧
    (∀ g : Grid, canPlaceWord g w row col d = true →
      fullLengthStart row col d) ∧
    (¬fullLengthStart row col d →
      (row + (getDirectionDeltas d).1 * ((w.length : Int) - 1) < 0 ∨
       row + (getDirectionDeltas d).1 * ((w.length : Int) - 1) ≥
         (gridSize : Int) ∨
       col + (getDirectionDeltas d).2 * ((w.length : Int) - 1) < 0 ∨
       col + (getDirectionDeltas d).2 * ((w.length : Int) - 1) ≥
         (gridSize : Int))) := by
  have hL : (w.length : Int) - 1 = 9 := by
    rw [hlen]; norm_num [gridSize]
  have hg : (gridSize : Int) = 10 := by norm_num [gridSize]
  have hmain : (0 ≤ row + (getDirectionDeltas d).1 *
        ((w.length : Int) - 1) ∧
      row + (getDirectionDeltas d).1 * ((w.length : Int) - 1) <
        (gridSize : Int) ∧
      0 ≤ col + (getDirectionDeltas d).2 * ((w.length : Int) - 1) ∧
      col + (getDirectionDeltas d).2 * ((w.length : Int) - 1) <
        (gridSize : Int)) ↔ fullLengthStart row col d := by
    rw [hL, hg]
    norm_num [gridSize] at hr hc
    interval_cases d <;>
      simp only [fullLengthStart, getDirectionDeltas, RIGHT, LEFT, DOWN,
        UP, DOWN_RIGHT, DOWN_LEFT, UP_RIGHT, UP_LEFT] <;>
      norm_num [gridSize] <;> omega
  refine ⟨?_, ?_, ?_⟩
  · rw [canPlaceWord_eq_true]
    rw [checkConflicts_empty]
    simp only [and_true]
    exact hmain
  · intro g hcan
    exact hmain.mp ((canPlaceWord_eq_true g w row col d).mp hcan).1
  · intro hns
    by_contra hcon
    push_neg at hcon
    exact hns (hmain.mp ⟨hcon.1, hcon.2.1, hcon.2.2.1, hcon.2.2.2⟩)

/-- Witness for the amended C4: a full-length word placed RIGHT from the
origin of the empty grid. -/
theorem claim4_witness :
    ((List.replicate 10 'A').length = gridSize ∧
      fullLengthStart 0 0 RIGHT) ∧
    (canPlaceWord emptyGrid (List.replicate 10 'A') 0 0 RIGHT = true ↔
      fullLengthStart 0 0 RIGHT) :=
  ⟨⟨by decide, by decide⟩,
   (claim4_boundary (List.replicate 10 'A') (by decide) 0 0 RIGHT
      (by decide) (by decide) (by decide) (by decide) (by decide)
      (by decide)).1⟩

/-- C9: when the end-coordinate bounds check of `canPlaceWord` passes for a
word of length between 1 and `gridSize` started inside the grid, every
intermediate path cell lies inside the grid on both axes, and every
placement recorded by the engine has its full path in bounds (so the
verifier's out-of-bounds branch is unreachable for recorded placements). -/
theorem claim9_path_safety :
    (∀ (w : List Char) (row col d : Int), 1 ≤ w.length →
      w.length ≤ gridSize → 0 ≤ row → row < (gridSize : Int) → 0 ≤ col →
      col < (gridSize : Int) →
      ¬(row + (getDirectionDeltas d).1 * ((w.length : Int) - 1) < 0 ∨
        row + (getDirectionDeltas d).1 * ((w.length : Int) - 1) ≥
          (gridSize : Int) ∨
        col + (getDirectionDeltas d).2 * ((w.length : Int) - 1) < 0 ∨
        col + (getDirectionDeltas d).2 * ((w.length : Int) - 1) ≥
          (gridSize : Int)) →
      ∀ i : Nat, i < w.length →
        0 ≤ row + (getDirectionDeltas d).1 * ((i : Nat) : Int) ∧
        row + (getDirectionDeltas d).1 * ((i : Nat) : Int) <
          (gridSize : Int) ∧
        0 ≤ col + (getDirectionDeltas d).2 * ((i : Nat) : Int) ∧
        col + (getDirectionDeltas d).2 * ((i : Nat) : Int) <
          (gridSize : Int)) ∧
    (∀ (words : List (List Char)) (stream : Nat → Nat),
      ∀ p ∈ (generateWordSearchGrid words stream).2, PathInBounds p) := by
  constructor
  · intro w row col d _ _ hr0 hr hc0 hc hbc i hi
    push_neg at hbc
    have hsm := getDirectionDeltas_small d
    have h1 := step_in_bounds (getDirectionDeltas d).1 hsm.1 row w.length i
      hr0 hr hbc.1 hbc.2.1 hi
    have h2 := step_in_bounds (getDirectionDeltas d).2 hsm.2.1 col w.length
      i hc0 hc hbc.2.2.1 hbc.2.2.2 hi
    exact ⟨h1.1, h1.2, h2.1, h2.2⟩
  · intro words stream p hp
    exact processWords_paths stream words emptyGrid [] 0 (by simp) p hp

/-- Witness for C9: the word AB placed RIGHT from the origin keeps every
path cell in bounds, and the placements of a concrete run are all in
bounds. -/
theorem claim9_witness :
    (∀ i : Nat, i < (['A', 'B'] : List Char).length →
      0 ≤ (0 : Int) + (getDirectionDeltas 0).1 * ((i : Nat) : Int) ∧
      (0 : Int) + (getDirectionDeltas 0).1 * ((i : Nat) : Int) <
        (gridSize : Int) ∧
      0 ≤ (0 : Int) + (getDirectionDeltas 0).2 * ((i : Nat) : Int) ∧
      (0 : Int) + (getDirectionDeltas 0).2 * ((i : Nat) : Int) <
        (gridSize : Int)) ∧
    (∀ p ∈ (generateWordSearchGrid [['C', 'A', 'T']] (fun _ => 0)).2,
      PathInBounds p) :=
  ⟨claim9_path_safety.1 ['A', 'B'] 0 0 0 (by decide) (by decide)
      (by decide) (by decide) (by decide) (by decide) (by decide),
   claim9_path_safety.2 [['C', 'A', 'T']] (fun _ => 0)⟩

/-- C10: `placeWord` modifies only the cells on the word's path — any cell
off the path keeps exactly its previous value, and a path cell that
already held the word's letter at that offset keeps the same value. -/
theorem claim10_placeWord_frame (g : Grid) (w : List Char)
    (row col d r' c' : Int) :
    ((∀ i : Nat, i < w.length →
        ¬(r' = row + (getDirectionDeltas d).1 * ((i : Nat) : Int) ∧
          c' = col + (getDirectionDeltas d).2 * ((i : Nat) : Int))) →
      placeWord g w row col d r' c' = g r' c') ∧
    (∀ (i : Nat) (h : i < w.length),
      g (row + (getDirectionDeltas d).1 * ((i : Nat) : Int))
          (col + (getDirectionDeltas d).2 * ((i : Nat) : Int)) =
        w.get ⟨i, h⟩ →
      placeWord g w row col d
          (row + (getDirectionDeltas d).1 * ((i : Nat) : Int))
          (col + (getDirectionDeltas d).2 * ((i : Nat) : Int)) =
        g (row + (getDirectionDeltas d).1 * ((i : Nat) : Int))
          (col + (getDirectionDeltas d).2 * ((i : Nat) : Int))) := by
  constructor
  · intro hoff
    exact placeWord_off_path g w row col d r' c' hoff
  · intro i h hval
    rw [placeWord_at_cell g w row col d i h]
    exact hval.symm

/-- Witness for C10: placing AB rightwards from the origin over a grid
already holding `A` at the origin leaves an off-path cell and the matching
path cell unchanged. -/
theorem claim10_witness :
    placeWord (updateCell emptyGrid 0 0 'A') ['A', 'B'] 0 0 0 5 5 =
      updateCell emptyGrid 0 0 'A' 5 5 ∧
    placeWord (updateCell emptyGrid 0 0 'A') ['A', 'B'] 0 0 0
        (0 + (getDirectionDeltas 0).1 * ((0 : Nat) : Int))
        (0 + (getDirectionDeltas 0).2 * ((0 : Nat) : Int)) =
      updateCell emptyGrid 0 0 'A'
        (0 + (getDirectionDeltas 0).1 * ((0 : Nat) : Int))
        (0 + (getDirectionDeltas 0).2 * ((0 : Nat) : Int)) :=
  ⟨(claim10_placeWord_frame (updateCell emptyGrid 0 0 'A') ['A', 'B']
      0 0 0 5 5).1 (by decide),
   (claim10_placeWord_frame (updateCell emptyGrid 0 0 'A') ['A', 'B']
      0 0 0 5 5).2 0 (by decide) (by decide)⟩

theorem isOk_error {ε α : Type} (e : ε) :
    (Except.error e : Except ε α).isOk = false := rfl

theorem isOk_ok {ε α : Type} (a : α) :
    (Except.ok a : Except ε α).isOk = true := rfl

/-- C6: the run aborts exactly in the configuration-error cases — unreadable
vocabulary file, fewer than 10 usable (trimmed, non-blank) lines, or fewer
than 10 words after length filtering; `loadCustomVocab` returns the trimmed
non-blank lines in order and errors iff fewer than 10 remain; word-placement
failures never abort and the number of recorded placements never exceeds
the word count. -/
theorem claim6_config_errors :
    (∀ lines ws, loadCustomVocab lines = Except.ok ws →
      ws = usableLines lines ∧ 10 ≤ ws.length) ∧
    (∀ lines, (loadCustomVocab lines).isOk = false ↔
      (usableLines lines).length < 10) ∧
    ((mainVocabPipeline none).isOk = false ↔
      (filterWordsByLength firstGradeVocab gridSize).length < 10) ∧
    ((mainVocabPipeline (some none)).isOk = false) ∧
    (∀ lines, (mainVocabPipeline (some (some lines))).isOk = false ↔
      ((usableLines lines).length < 10 ∨
       (filterWordsByLength (usableLines lines) gridSize).length < 10)) ∧
    (∀ (words : List (List Char)) (stream : Nat → Nat),
      ((generateWordSearchGrid words stream).2).length ≤ words.length) := by
  have hok : ∀ lines, mainVocabPipeline (some (some lines)) =
      (match loadCustomVocab lines with
       | Except.error e => Except.error e
       | Except.ok vocab =>
         if (filterWordsByLength vocab gridSize).length < 10 then
           Except.error "not enough words available after filtering"
         else Except.ok (filterWordsByLength vocab gridSize)) :=
    fun _ => rfl
  refine ⟨?_, ?_, ?_, rfl, ?_, ?_⟩
  · intro lines ws h
    rw [loadCustomVocab_eq] at h
    by_cases hlt : (usableLines lines).length < 10
    · rw [if_pos hlt] at h
      exact absurd h (by simp)
    · rw [if_neg hlt] at h
      have hws : usableLines lines = ws := by
        simpa using h
      exact ⟨hws.symm, hws ▸ Nat.le_of_not_lt hlt⟩
  · intro lines
    rw [loadCustomVocab_eq]
    by_cases hlt : (usableLines lines).length < 10
    · rw [if_pos hlt, isOk_error]
      simpa using hlt
    · rw [if_neg hlt, isOk_ok]
      simp [hlt]
  · have h3 : mainVocabPipeline none =
        (if (filterWordsByLength firstGradeVocab gridSize).length < 10 then
          Except.error "not enough words available after filtering"
        else Except.ok (filterWordsByLength firstGradeVocab gridSize)) :=
      rfl
    rw [h3]
    by_cases hlt : (filterWordsByLength firstGradeVocab gridSize).length < 10
    · rw [if_pos hlt, isOk_error]
      simpa using hlt
    · rw [if_neg hlt, isOk_ok]
      simp [hlt]
  · intro lines
    rw [hok lines, loadCustomVocab_eq]
    by_cases hlt : (usableLines lines).length < 10
    · rw [if_pos hlt]
      show (Except.error "vocabulary file must contain at least 10 words" :
        Except String (List String)).isOk = false ↔ _
      rw [isOk_error]
      simp [hlt]
    · rw [if_neg hlt]
      show (if (filterWordsByLength (usableLines lines) gridSize).length <
          10 then
        (Except.error "not enough words available after filtering" :
          Except String (List String))
      else Except.ok (filterWordsByLength (usableLines lines)
        gridSize)).isOk = false ↔ _
      by_cases hflt :
          (filterWordsByLength (usableLines lines) gridSize).length < 10
      · rw [if_pos hflt]
        show (Except.error "not enough words available after filtering" :
          Except String (List String)).isOk = false ↔ _
        rw [isOk_error]
        simp [hlt, hflt]
      · rw [if_neg hflt]
        show (Except.ok (filterWordsByLength (usableLines lines) gridSize) :
          Except String (List String)).isOk = false ↔ _
        rw [isOk_ok]
        simp [hlt, hflt]
  · intro words stream
    simpa using processWords_placements_le stream words emptyGrid [] 0

/-- Witness for C6: a 10-line file loads successfully with its lines kept in
order; a file with one usable line is a fatal configuration error; an
unreadable file is fatal; and a concrete run records at most as many
placements as it was given words. -/
theorem claim6_witness :
    (usableLines ["apple", "banana", "cherry", "dragon", "eagle", "falcon",
        "grape", "honey", "igloo", "jelly"] =
      usableLines ["apple", "banana", "cherry", "dragon", "eagle", "falcon",
        "grape", "honey", "igloo", "jelly"] ∧
      10 ≤ (usableLines ["apple", "banana", "cherry", "dragon", "eagle",
        "falcon", "grape", "honey", "igloo", "jelly"]).length) ∧
    (mainVocabPipeline (some (some ["a", "", "  "]))).isOk = false ∧
    (mainVocabPipeline (some none)).isOk = false ∧
    ((generateWordSearchGrid [['C', 'A', 'T']] (fun _ => 0)).2).length ≤
      ([['C', 'A', 'T']] : List (List Char)).length :=
  ⟨claim6_config_errors.1 ["apple", "banana", "cherry", "dragon", "eagle",
      "falcon", "grape", "honey", "igloo", "jelly"] _ (by rfl),
   (claim6_config_errors.2.2.2.2.1 ["a", "", "  "]).mpr
     (Or.inl (by decide)),
   claim6_config_errors.2.2.2.1,
   claim6_config_errors.2.2.2.2.2 [['C', 'A', 'T']] (fun _ => 0)⟩

/-- Counterexample to C7 as stated: the input list `["a", "A"]` contains no
duplicate words, yet under a random stream that always draws index 0 the
selection loop returns `["A", "A"]`, which has a duplicate (uppercase
conversion collapses the two distinct inputs). -/
theorem claim7_counterexample :
    (["a", "A"] : List String).Nodup ∧
    ¬(selectWords ["a", "A"] (fun _ => 0) 0).1.Nodup := by decide

/-- C7 (amended): the selection loop returns at most `min 10 n` words for an
input list of length `n`, each returned word is the uppercase conversion of
some element of the input list, and when the uppercase conversions of the
input words contain no duplicates the returned list contains no
duplicates. -/
theorem claim7_selection (vocabulary : List String) (stream : Nat → Nat)
    (k : Nat) :
    (selectWords vocabulary stream k).1.length ≤
      min 10 vocabulary.length ∧
    (∀ w ∈ (selectWords vocabulary stream k).1,
      ∃ v ∈ vocabulary, w = strToUpper v) ∧
    ((vocabulary.map strToUpper).Nodup →
      (selectWords vocabulary stream k).1.Nodup) := by
  refine ⟨?_, ?_, ?_⟩
  · rw [selectWords, selectWordsLoop_length]
    simp
  · intro w hw
    rcases selectWordsLoop_mem stream 10 vocabulary [] k w hw with h | h
    · exact absurd h (by simp)
    · exact h
  · intro hnd
    apply selectWordsLoop_nodup stream 10 vocabulary [] k
    simpa using hnd

/-- Witness for C7 at a two-word vocabulary whose uppercase forms are
distinct. -/
theorem claim7_witness :
    ((["cat", "dog"].map strToUpper).Nodup) ∧
    (selectWords ["cat", "dog"] (fun _ => 0) 0).1.length ≤
      min 10 (["cat", "dog"] : List String).length ∧
    (selectWords ["cat", "dog"] (fun _ => 0) 0).1.Nodup :=
  ⟨by decide,
   (claim7_selection ["cat", "dog"] (fun _ => 0) 0).1,
   (claim7_selection ["cat", "dog"] (fun _ => 0) 0).2.2 (by decide)⟩

/-- C8: `filterWordsByLength` returns exactly the words of length at most
the maximum, in input order, as a pure function of its arguments, and
filtering is idempotent. -/
theorem claim8_filter_pure (words : List String) (maxLength : Nat) :
    filterWordsByLength words maxLength =
      words.filter (fun w => w.utf8ByteSize ≤ maxLength) ∧
    filterWordsByLength (filterWordsByLength words maxLength) maxLength =
      filterWordsByLength words maxLength := by
  refine ⟨filterWordsByLength_eq words maxLength, ?_⟩
  rw [filterWordsByLength_eq, filterWordsByLength_eq, List.filter_filter]
  congr 1
  funext w
  cases hdec : decide (w.utf8ByteSize ≤ maxLength) <;> simp [hdec]

end WordSearch
